import Mathlib

/-!
Verification development for the interactive data-analyzer program
(`data_analyzer.py`).  The program wraps a pandas `DataFrame` held in a
session object (`DataAnalyzer`) together with the display name of its
source file.  Below, the data model and every operation the claims refer
to are embedded as executable Lean definitions, translated directly from
the source:

* `Table` models a `DataFrame`: named, typed columns and a list of rows.
* `clean_table` and `clean_data` model `DataAnalyzer.clean_data`:
  duplicate-row removal (pandas `drop_duplicates`, keeping the first
  occurrence, with NaN cells comparing equal) followed by imputation of
  missing values (median for numeric columns, mode for object columns,
  nothing for datetime columns, mirroring the two `select_dtypes` calls).
  The expression `mode()[0]` raises on a column whose values are all
  missing, so the embedding returns `Option Table`, `none` modelling the
  uncaught exception.
* `load_data`, `create_sample_data`, `show_overview`, `show_statistics`,
  `create_visualizations`, `export_report` model the remaining methods;
  `menu_step` and `runMenu` model one iteration and a whole run of the
  `main` loop.
-/

set_option autoImplicit false

namespace Analyzer

/-- A scalar cell of the table: numeric, textual, a date, or missing
(pandas `NaN`/`NaT`). Rationals stand in for the numeric values. -/
inductive Value where
  | num (q : ℚ)
  | str (s : String)
  | date (d : ℤ)
  | missing
deriving DecidableEq

/-- The pandas dtype of a column, as far as the program distinguishes
them: numeric (`select_dtypes(['number'])`), object/str/category
(`select_dtypes(['object', 'str'])` or with `'category'`), or
datetime (selected by neither call in `clean_data`). -/
inductive ColType where
  | num
  | text
  | date
deriving DecidableEq

/-- The in-memory table (`self.df`): ordered named, typed columns and a
list of rows. -/
structure Table where
  colNames : List String
  colTypes : List ColType
  rows : List (List Value)
deriving DecidableEq

/-- The session state: the current table and the display name of its
source (`self.df`, `self.filename`), both `None` initially. -/
structure Session where
  df : Option Table
  filename : Option String
deriving DecidableEq

/-- The state of a fresh `DataAnalyzer()`. -/
def initSession : Session := ⟨none, none⟩

/-- Column `j` of the rows, read positionally (missing for a too-short
row; well-formed tables have no such rows). -/
def getCol (rows : List (List Value)) (j : ℕ) : List Value :=
  rows.map (fun r => r.getD j Value.missing)

/-- Number of missing entries in a list of cells (`isnull().sum()` for
one column). -/
def missingCount (vs : List Value) : ℕ :=
  vs.count Value.missing

/-- Total number of missing entries (`df.isnull().sum().sum()`). -/
def missingTotal (t : Table) : ℕ :=
  ((List.range t.colTypes.length).map (fun j => missingCount (getCol t.rows j))).sum

/-- Keep each element whose value has not appeared among `seen` or
earlier in the list: the recursion behind `drop_duplicates`
(`keep='first'`). -/
def dedupGo {α : Type} [DecidableEq α] (seen : List α) : List α → List α
  | [] => []
  | a :: as => if a ∈ seen then dedupGo seen as else a :: dedupGo (a :: seen) as

/-- Keep the first occurrence of each element, dropping later equal
ones: pandas `drop_duplicates()` on the rows.  Pandas compares NaN cells
as equal when detecting duplicates, as does `Value.missing`. -/
def pdDedup {α : Type} [DecidableEq α] (l : List α) : List α :=
  dedupGo [] l

/-- Number of rows flagged by `df.duplicated().sum()`: the rows equal to
an earlier row, i.e. those that deduplication would drop. -/
def duplicatedCount {α : Type} [DecidableEq α] (l : List α) : ℕ :=
  l.length - (pdDedup l).length

/-- The duplicate-removal step of `clean_data`: `drop_duplicates` is
invoked only when `df.duplicated().sum() > 0`. -/
def dedupT (t : Table) : Table :=
  if 0 < duplicatedCount t.rows then { t with rows := pdDedup t.rows } else t

/-- The numeric entries of a column, missing values ignored (what
`median()` gets to see). -/
def numsOf (vs : List Value) : List ℚ :=
  vs.filterMap (fun v => match v with | .num q => some q | _ => none)

/-- The textual entries of a column, missing values ignored (what
`mode()` gets to see). -/
def strsOf (vs : List Value) : List String :=
  vs.filterMap (fun v => match v with | .str s => some s | _ => none)

/-- Insert into a list sorted in nondecreasing order. -/
def insertLe (a : ℚ) : List ℚ → List ℚ
  | [] => [a]
  | b :: bs => if a ≤ b then a :: b :: bs else b :: insertLe a bs

/-- Sort in nondecreasing order (insertion sort; the model of the sort
inside `Series.median`). -/
def sortQ (xs : List ℚ) : List ℚ :=
  xs.foldr insertLe []

/-- Pandas `Series.median()` over the non-missing entries: `none` for an
empty list (pandas returns NaN), the middle element for odd length, the
mean of the two middle elements for even length. -/
def median (xs : List ℚ) : Option ℚ :=
  if xs.length = 0 then none
  else
    let s := sortQ xs
    if xs.length % 2 = 1 then some (s.getD (xs.length / 2) 0)
    else some ((s.getD (xs.length / 2 - 1) 0 + s.getD (xs.length / 2) 0) / 2)

/-- Lexicographic strict order on character lists by code point (Python
string comparison). -/
def strLtL : List Char → List Char → Bool
  | [], [] => false
  | [], _ :: _ => true
  | _ :: _, [] => false
  | a :: as, b :: bs =>
    if a.toNat < b.toNat then true
    else if b.toNat < a.toNat then false
    else strLtL as bs

/-- The smaller of two strings in code-point order, the left one on
ties. -/
def minStr (a b : String) : String :=
  if strLtL b.data a.data then b else a

/-- Pandas `Series.mode()[0]` over the non-missing entries: among the
values of maximal multiplicity, the least in sort order (pandas returns
the modes sorted and `[0]` takes the first); `none` when the list is
empty, in which case `mode()[0]` raises. -/
def modeStr (xs : List String) : Option String :=
  match xs.filter (fun a => xs.all (fun b => xs.count b ≤ xs.count a)) with
  | [] => none
  | c :: cs => some (cs.foldl minStr c)

/-- The value `fillna` would use for one column of the given dtype:
`some v` when the column has a missing entry and the statistic is
defined, `none` when nothing is filled in that column.  Mirrors the two
loops of `clean_data`: numeric columns get their median, object columns
their mode, datetime columns are selected by neither loop; a column
without missing values is skipped by the `isnull().sum() > 0` guard.  A
numeric column with no non-missing entry has median NaN and
`fillna(NaN)` changes nothing. -/
def colFillVal (ty : ColType) (vs : List Value) : Option Value :=
  match ty with
  | .num => if 0 < missingCount vs then (median (numsOf vs)).map Value.num else none
  | .text => if 0 < missingCount vs then (modeStr (strsOf vs)).map Value.str else none
  | .date => none

/-- Whether the fill loop raises on this column: `mode()[0]` on an
object column whose non-missing part is empty. -/
def colCrash (ty : ColType) (vs : List Value) : Bool :=
  match ty with
  | .text => if 0 < missingCount vs then (modeStr (strsOf vs)).isNone else false
  | _ => false

/-- The per-column fill values of the imputation step. -/
def fills (t : Table) : List (Option Value) :=
  (List.range t.colTypes.length).map
    (fun j => colFillVal (t.colTypes.getD j ColType.date) (getCol t.rows j))

/-- Whether the imputation step raises on some column. -/
def crashes (t : Table) : Bool :=
  (List.range t.colTypes.length).any
    (fun j => colCrash (t.colTypes.getD j ColType.date) (getCol t.rows j))

/-- Replace one cell by the column's fill value when the cell is
missing and a fill value exists. -/
def cellFill (v : Value) (f : Option Value) : Value :=
  if v = Value.missing then f.getD v else v

/-- Apply the per-column fill values across one row. -/
def fillRow (fs : List (Option Value)) (r : List Value) : List Value :=
  List.zipWith cellFill r fs

/-- `DataAnalyzer.clean_data` on the table itself: remove duplicate rows
when any exist, then, when any missing values remain, impute numeric
columns with their median and object columns with their mode (datetime
columns are untouched).  Returns `none` when `mode()[0]` raises. -/
def clean_table (t : Table) : Option Table :=
  if 0 < missingTotal (dedupT t) then
    if crashes (dedupT t) then none
    else some { dedupT t with rows := (dedupT t).rows.map (fillRow (fills (dedupT t))) }
  else some (dedupT t)

/-- A cell is acceptable in a column of the given dtype. -/
def cellOk (ty : ColType) (v : Value) : Bool :=
  match v with
  | .missing => true
  | .num _ => ty = ColType.num
  | .str _ => ty = ColType.text
  | .date _ => ty = ColType.date

/-- Well-formedness of a table, as guaranteed by pandas for any loaded
frame: as many names as dtypes, every row as long as the column list,
and every cell missing or of its column's dtype. -/
def WF (t : Table) : Prop :=
  t.colNames.length = t.colTypes.length ∧
    ∀ r ∈ t.rows, r.length = t.colTypes.length ∧
      ∀ j < r.length, cellOk (t.colTypes.getD j ColType.date) (r.getD j Value.missing) = true

instance (t : Table) : Decidable (WF t) := by
  unfold WF; infer_instance

/-- A column on which the imputation loop of `clean_data` has nothing
left to do: a numeric column with no missing entry or with no numeric
entry at all, an object column with no missing entry, or a datetime
column.  Every column satisfies this after a successful clean. -/
def colClean (ty : ColType) (vs : List Value) : Prop :=
  match ty with
  | .num => missingCount vs = 0 ∨ numsOf vs = []
  | .text => missingCount vs = 0
  | .date => True

/-! ### Reporter operations -/

/-- What `show_overview` prints: either the "No data loaded" diagnostic
or the shape and total missing count of the table. -/
inductive OverviewOut where
  | noData
  | report (rows cols missing : ℕ)
deriving DecidableEq

/-- `DataAnalyzer.show_overview`: a read-only operation; with no table
it only prints a diagnostic. -/
def show_overview (s : Session) : Session × OverviewOut :=
  match s.df with
  | none => (s, .noData)
  | some t => (s, .report t.rows.length t.colNames.length (missingTotal t))

/-- The names of the numeric columns
(`select_dtypes(include=['number']).columns`). -/
def numericNames (t : Table) : List String :=
  (t.colNames.zip t.colTypes).filterMap
    (fun p => if p.2 = ColType.num then some p.1 else none)

/-- The names of the object/categorical columns
(`select_dtypes(include=['object', 'category', 'str']).columns`). -/
def catNames (t : Table) : List String :=
  (t.colNames.zip t.colTypes).filterMap
    (fun p => if p.2 = ColType.text then some p.1 else none)

/-- What `show_statistics` prints: the diagnostic, or which numeric and
categorical columns were summarised. -/
inductive StatsOut where
  | noData
  | report (numeric categorical : List String)
deriving DecidableEq

/-- `DataAnalyzer.show_statistics`: read-only. -/
def show_statistics (s : Session) : Session × StatsOut :=
  match s.df with
  | none => (s, .noData)
  | some t => (s, .report (numericNames t) (catNames t))

/-- What `clean_data` prints: the diagnostic, or the number of duplicate
rows removed, the number of missing values it reports filling, and the
row counts before and after. -/
inductive CleanOut where
  | noData
  | report (dupsRemoved filled rowsBefore rowsAfter : ℕ)
deriving DecidableEq

/-- `DataAnalyzer.clean_data` at session level: replaces the table with
its cleaned form; `none` models the uncaught `mode()[0]` exception. -/
def clean_data (s : Session) : Option (Session × CleanOut) :=
  match s.df with
  | none => some (s, .noData)
  | some t =>
    (clean_table t).map (fun t2 =>
      ({ s with df := some t2 },
       .report (duplicatedCount t.rows) (missingTotal (dedupT t))
         t.rows.length t2.rows.length))

/-! ### Visualizer -/

/-- One subplot of the dashboard, by content. -/
inductive Panel where
  | hist (col : String) (values : List ℚ)
  | bar (col : String) (top : List (String × ℕ))
  | heatmap (cols : List String)
  | scatter (x y : String)
deriving DecidableEq

/-- What `create_visualizations` produces: the diagnostic flag, the
files written, and the four subplots (`none` = the axes are left
blank). -/
structure VizOut where
  noData : Bool
  writes : List String
  panel1 : Option Panel
  panel2 : Option Panel
  panel3 : Option Panel
  panel4 : Option Panel
deriving DecidableEq

/-- The column of the given name (first match, as pandas indexing by a
unique label). -/
def colByName (t : Table) (c : String) : List Value :=
  getCol t.rows (t.colNames.indexOf c)

/-- Insert into a list sorted by descending count, after entries of
greater-or-equal count. -/
def insertDesc (p : String × ℕ) : List (String × ℕ) → List (String × ℕ)
  | [] => [p]
  | q :: qs => if q.2 < p.2 then p :: q :: qs else q :: insertDesc p qs

/-- Pandas `value_counts()`: the distinct values with their
multiplicities, sorted by descending count. -/
def valueCounts (xs : List String) : List (String × ℕ) :=
  ((pdDedup xs).map (fun v => (v, xs.count v))).foldr insertDesc []

/-- Subplot 1: histogram of the first numeric column, missing values
dropped; drawn only when a numeric column exists. -/
def histPanel (t : Table) : Option Panel :=
  (numericNames t).head?.map (fun c => .hist c (numsOf (colByName t c)))

/-- Subplot 2: bar chart of the top ten values of the first categorical
column; drawn only when a categorical column exists. -/
def barPanel (t : Table) : Option Panel :=
  (catNames t).head?.map
    (fun c => .bar c ((valueCounts (strsOf (colByName t c))).take 10))

/-- Subplot 3: correlation heatmap over the numeric columns; drawn only
when at least two numeric columns exist. -/
def heatmapPanel (t : Table) : Option Panel :=
  if 2 ≤ (numericNames t).length then some (.heatmap (numericNames t)) else none

/-- Subplot 4: scatter plot of the first two numeric columns; drawn only
when at least two numeric columns exist. -/
def scatterPanel (t : Table) : Option Panel :=
  match numericNames t with
  | a :: b :: _ => some (.scatter a b)
  | _ => none

/-- `DataAnalyzer.create_visualizations`: with no table, only a
diagnostic; otherwise the dashboard image is always written, each
subplot drawn exactly when its precondition holds. -/
def create_visualizations (s : Session) : Session × VizOut :=
  match s.df with
  | none => (s, ⟨true, [], none, none, none, none⟩)
  | some t =>
    (s, ⟨false, ["analysis_dashboard.png"],
         histPanel t, barPanel t, heatmapPanel t, scatterPanel t⟩)

/-- What `export_report` produces: the diagnostic flag and the files
written. -/
structure ReportOut where
  noData : Bool
  writes : List String
deriving DecidableEq

/-- `DataAnalyzer.export_report`: with no table, only a diagnostic;
otherwise the report file is written. -/
def export_report (s : Session) : Session × ReportOut :=
  match s.df with
  | none => (s, ⟨true, []⟩)
  | some _ => (s, ⟨false, ["analysis_report.txt"]⟩)

/-! ### Loader -/

/-- Python `str.strip` whitespace test (the characters the program can
meet on a menu line). -/
def wsChar (c : Char) : Bool :=
  c = ' ' ∨ c = '\t' ∨ c = '\n' ∨ c = '\r'

/-- Python `str.strip()`. -/
def strip (s : String) : String :=
  String.mk (((s.data.dropWhile wsChar).reverse.dropWhile wsChar).reverse)

/-- Python `str.lower()`. -/
def lowerStr (s : String) : String :=
  String.mk (s.data.map Char.toLower)

/-- `pathlib.Path(p).name`: the final path component, trailing slashes
dropped. -/
def pathName (p : String) : String :=
  String.mk (((p.data.reverse.dropWhile (fun c => c = '/')).takeWhile
    (fun c => c ≠ '/')).reverse)

/-- `pathlib.Path(p).suffix`: the final dot and what follows it, empty
when the name has no dot, starts with its only dot, or ends with the
dot. -/
def pathSuffix (p : String) : String :=
  let name := (pathName p).data
  let ext := name.reverse.takeWhile (fun c => c ≠ '.')
  if ('.' ∈ name) ∧ 0 < ext.length ∧ ext.length < name.length - 1 then
    String.mk ('.' :: ext.reverse)
  else ""

/-- How one `load_data` call ended, as reported to the user. -/
inductive LoadOutcome where
  | success
  | unsupported (ext : String)
  | loadError (msg : String)
deriving DecidableEq

/-- `DataAnalyzer.load_data`.  The two parsers (`pd.read_csv`,
`pd.read_excel`) are parameters: a map from path to parsed table or
error text.  On an unrecognised extension or a parser error the session
is returned as it was. -/
def load_data (readCsv readExcel : String → Except String Table)
    (s : Session) (filepath : String) : Session × LoadOutcome :=
  if lowerStr (pathSuffix filepath) = ".csv" then
    match readCsv filepath with
    | .ok t => ({ df := some t, filename := some (pathName filepath) }, .success)
    | .error e => (s, .loadError e)
  else if lowerStr (pathSuffix filepath) = ".xlsx" ∨
      lowerStr (pathSuffix filepath) = ".xls" then
    match readExcel filepath with
    | .ok t => ({ df := some t, filename := some (pathName filepath) }, .success)
    | .error e => (s, .loadError e)
  else (s, .unsupported (lowerStr (pathSuffix filepath)))

/-! ### Sample data

`create_sample_data` seeds numpy's legacy Mersenne-Twister generator
with 42 and draws, in order, 100 region indices (`choice` over four
values, i.e. bounded draws below 4), 100 product indices (below 3),
100 sales amounts (`randint(1000, 10000)`) and 100 unit counts
(`randint(10, 100)`).  The generator and its masked-rejection bounded
sampling are embedded below on `ℕ` with explicit reduction mod `2^32`. -/

/-- Tail of the MT19937 seed-initialisation recurrence
`mt[i] = (1812433253 * (mt[i-1] xor (mt[i-1] >> 30)) + i) mod 2^32`. -/
def mtInitGo (prev i : ℕ) : ℕ → List ℕ
  | 0 => []
  | fuel + 1 =>
    let cur := (1812433253 * (prev ^^^ (prev >>> 30)) + i) % 4294967296
    cur :: mtInitGo cur (i + 1) fuel

/-- The 624-word MT19937 state seeded by `np.random.seed`. -/
def mtInit (seed : ℕ) : List ℕ :=
  (seed % 4294967296) :: mtInitGo (seed % 4294967296) 1 623

/-- Mersenne-Twister generator state: the word array and the position of
the next word to emit. -/
structure MT where
  arr : List ℕ
  idx : ℕ

/-- One step of the MT19937 state twist at index `i`. -/
def twistStep (arr : List ℕ) (i : ℕ) : List ℕ :=
  let y := (arr.getD i 0 &&& 2147483648) + (arr.getD ((i + 1) % 624) 0 &&& 2147483647)
  let v := arr.getD ((i + 397) % 624) 0 ^^^ (y >>> 1) ^^^
    (if y % 2 = 1 then 2567483615 else 0)
  arr.set i v

/-- The full MT19937 twist, regenerating all 624 words in place. -/
def twist (arr : List ℕ) : List ℕ :=
  (List.range 624).foldl twistStep arr

/-- The MT19937 output tempering. -/
def temper (y0 : ℕ) : ℕ :=
  let y1 := y0 ^^^ (y0 >>> 11)
  let y2 := y1 ^^^ ((y1 <<< 7) &&& 2636928640)
  let y3 := y2 ^^^ ((y2 <<< 15) &&& 4022730752)
  y3 ^^^ (y3 >>> 18)

/-- Emit one 32-bit word, twisting first when the array is spent. -/
def mtNext (st : MT) : ℕ × MT :=
  if st.idx ≥ 624 then
    let a := twist st.arr
    (temper (a.getD 0 0), ⟨a, 1⟩)
  else
    (temper (st.arr.getD st.idx 0), ⟨st.arr, st.idx + 1⟩)

/-- The smallest all-ones bitmask covering `rng` (numpy's mask for
masked-rejection sampling). -/
def maskFor (rng : ℕ) : ℕ :=
  [1, 2, 4, 8, 16].foldl (fun m s => m ||| (m >>> s)) rng

/-- Masked-rejection sampling of a value in `0..rng`: draw a word, mask
it, retry while it exceeds `rng`.  The source's loop has no bound; the
fuel only renders the model total, with a final masked draw reduced mod
`rng + 1`. -/
def boundedDraw : ℕ → MT → ℕ → ℕ → ℕ × MT
  | 0, st, rng, _ =>
    let (x, st2) := mtNext st
    (x % (rng + 1), st2)
  | fuel + 1, st, rng, mask =>
    let (x, st2) := mtNext st
    let v := x &&& mask
    if v ≤ rng then (v, st2) else boundedDraw fuel st2 rng mask

/-- Legacy `np.random.randint(low, high)`: a masked-rejection draw in
`0..high-low-1`, shifted by `low`. -/
def randint (low high : ℕ) (st : MT) : ℕ × MT :=
  let rng := high - low - 1
  let (v, st2) := boundedDraw 128 st rng (maskFor rng)
  (low + v, st2)

/-- A vector of `n` draws of `randint(low, high)`. -/
def randints (low high : ℕ) : ℕ → MT → List ℕ × MT
  | 0, st => ([], st)
  | n + 1, st =>
    let (v, st2) := randint low high st
    let (vs, st3) := randints low high n st2
    (v :: vs, st3)

/-- The generator state right after `np.random.seed(42)`. -/
def mtStart : MT := ⟨mtInit 42, 624⟩

/-- The 100 region indices (`np.random.choice` over four regions draws
indices below 4) and the state after them. -/
def regionDraw : List ℕ × MT := randints 0 4 100 mtStart

/-- The 100 product indices (below 3) and the state after them. -/
def productDraw : List ℕ × MT := randints 0 3 100 regionDraw.2

/-- The 100 sales amounts and the state after them. -/
def salesDraw : List ℕ × MT := randints 1000 10000 100 productDraw.2

/-- The 100 unit counts and the state after them. -/
def unitsDraw : List ℕ × MT := randints 10 100 100 salesDraw.2

/-- The region labels `np.random.choice` picks from. -/
def regionNames : List String := ["North", "South", "East", "West"]

/-- The product labels `np.random.choice` picks from. -/
def productNames : List String := ["Product A", "Product B", "Product C"]

/-- Sales amount of sample row `i`. -/
def sampleSale (i : ℕ) : ℕ := salesDraw.1.getD i 0

/-- Unit count of sample row `i`. -/
def sampleUnit (i : ℕ) : ℕ := unitsDraw.1.getD i 0

/-- Region of sample row `i`. -/
def sampleRegion (i : ℕ) : String := regionNames.getD (regionDraw.1.getD i 0) ""

/-- Product of sample row `i`. -/
def sampleProduct (i : ℕ) : String := productNames.getD (productDraw.1.getD i 0) ""

/-- Round to the nearest integer, ties to the even neighbour (numpy's
`round`). -/
def roundHalfEven (q : ℚ) : ℤ :=
  let f := Rat.floor q
  let d := q - f
  if d < 1 / 2 then f
  else if 1 / 2 < d then f + 1
  else if f % 2 = 0 then f else f + 1

/-- Numpy `round(x, 2)`. -/
def roundTo2 (q : ℚ) : ℚ :=
  (roundHalfEven (q * 100) : ℚ) / 100

/-- Row `i` of the sample table: date `2024-01-01 + i`, region, product,
sales, units, and price `(sales / units).round(2)`. -/
def mkSampleRow (i : ℕ) : List Value :=
  [Value.date i, Value.str (sampleRegion i), Value.str (sampleProduct i),
   Value.num (sampleSale i), Value.num (sampleUnit i),
   Value.num (roundTo2 ((sampleSale i : ℚ) / (sampleUnit i : ℚ)))]

/-- The deterministic 100-row sample table of `create_sample_data`. -/
def sampleTable : Table :=
  ⟨["Date", "Region", "Product", "Sales", "Units", "Price"],
   [.date, .text, .text, .num, .num, .num],
   (List.range 100).map mkSampleRow⟩

/-- `DataAnalyzer.create_sample_data`: replaces the session's table and
source name unconditionally. -/
def create_sample_data (_s : Session) : Session :=
  ⟨some sampleTable, some "sample_sales_data.csv"⟩

/-! ### Menu loop -/

/-- Whether the loop continues (`Cont.loop`) or the user chose 8
(`Cont.halt`). -/
inductive Cont where
  | loop
  | halt
deriving DecidableEq

/-- One iteration of `main`'s `while True` loop.  `line` is the menu
input, `pathInput` the path line read when the choice is `1`.  `none`
models the iteration dying of an uncaught exception (the `mode()[0]`
case inside choice 5). -/
def menu_step (rc re : String → Except String Table) (pathInput : String)
    (s : Session) (line : String) : Option (Session × Cont) :=
  let choice := strip line
  if choice = "1" then some ((load_data rc re s (strip pathInput)).1, .loop)
  else if choice = "2" then some (create_sample_data s, .loop)
  else if choice = "3" then some ((show_overview s).1, .loop)
  else if choice = "4" then some ((show_statistics s).1, .loop)
  else if choice = "5" then (clean_data s).map (fun r => (r.1, Cont.loop))
  else if choice = "6" then some ((create_visualizations s).1, .loop)
  else if choice = "7" then some ((export_report s).1, .loop)
  else if choice = "8" then some (s, .halt)
  else some (s, .loop)

/-- A whole run of the menu loop over a script of `(menu line, path
line)` pairs, stopping at choice 8. -/
def runMenu (rc re : String → Except String Table) (s : Session) :
    List (String × String) → Option Session
  | [] => some s
  | (line, pin) :: rest =>
    match menu_step rc re pin s line with
    | none => none
    | some (s2, .halt) => some s2
    | some (s2, .loop) => runMenu rc re s2 rest

/-! ### Concrete instances used in the theorems -/

/-- The price relation of one sample row: the sixth cell is
`round(sales / units, 2)` of the fourth and fifth. -/
def priceOk (r : List Value) : Prop :=
  match r with
  | [_, _, _, Value.num s, Value.num u, Value.num p] => p = roundTo2 (s / u)
  | _ => False

/-- A one-numeric-column table holding `1` and a missing value. -/
def exT1 : Table := ⟨["A"], [.num], [[.num 1], [.missing]]⟩

/-- The table `exT1` after one clean: the missing value became the
median `1`, making the two rows equal. -/
def exT1c : Table := ⟨["A"], [.num], [[.num 1], [.num 1]]⟩

/-- The table `exT1c` after another clean: the duplicate row created by
imputation was removed. -/
def exT1cc : Table := ⟨["A"], [.num], [[.num 1]]⟩

/-- A one-datetime-column table holding a date and a missing value. -/
def dateT : Table := ⟨["D"], [.date], [[.date 0], [.missing]]⟩

/-- The Region/Sales table of the concrete scenario. -/
def tblRS : Table :=
  ⟨["Region", "Sales"], [.text, .num],
   [[.str "North", .num 100], [.str "South", .num 200], [.str "North", .num 100]]⟩

/-- The Region/Sales table after cleaning: one duplicate row removed. -/
def tblRSc : Table :=
  ⟨["Region", "Sales"], [.text, .num],
   [[.str "North", .num 100], [.str "South", .num 200]]⟩

/-- A session holding the Region/Sales table. -/
def sRS : Session := ⟨some tblRS, some "region_sales.csv"⟩

/-- A table with a single textual column and no numeric column. -/
def tblText : Table := ⟨["Region"], [.text], [[.str "North"], [.str "South"]]⟩

/-- A session holding the text-only table. -/
def sText : Session := ⟨some tblText, some "regions.csv"⟩

/-- A parser stub that always fails. -/
def failParser : String → Except String Table := fun _ => .error "boom"

/-- A parser stub that always returns the given table. -/
def okParser (t : Table) : String → Except String Table := fun _ => .ok t

/-! ### Helper lemmas -/

section DedupLemmas

variable {α : Type} [DecidableEq α]

theorem dedupGo_sublist (seen : List α) (l : List α) : List.Sublist (dedupGo seen l) l := by
  induction l generalizing seen with
  | nil => simp [dedupGo]
  | cons a as ih =>
    unfold dedupGo
    split
    · exact (ih seen).trans (List.sublist_cons_self a as)
    · exact (ih (a :: seen)).cons₂ a

theorem mem_dedupGo {x : α} {seen l : List α} :
    x ∈ dedupGo seen l ↔ x ∈ l ∧ x ∉ seen := by
  induction l generalizing seen with
  | nil => simp [dedupGo]
  | cons a as ih =>
    unfold dedupGo
    split
    · rename_i ha
      rw [ih]
      constructor
      · rintro ⟨hx, hs⟩; exact ⟨List.mem_cons_of_mem a hx, hs⟩
      · rintro ⟨hx, hs⟩
        rcases List.mem_cons.mp hx with rfl | hx
        · exact absurd ha hs
        · exact ⟨hx, hs⟩
    · rename_i ha
      rw [List.mem_cons, ih]
      constructor
      · rintro (rfl | ⟨hx, hs⟩)
        · exact ⟨List.mem_cons_self x as, ha⟩
        · simp only [List.mem_cons, not_or] at hs
          exact ⟨List.mem_cons_of_mem a hx, hs.2⟩
      · rintro ⟨hx, hs⟩
        rcases List.mem_cons.mp hx with rfl | hx
        · exact Or.inl rfl
        · by_cases hxa : x = a
          · exact Or.inl hxa
          · exact Or.inr ⟨hx, by simp [hxa, hs]⟩

theorem dedupGo_nodup (seen : List α) (l : List α) : (dedupGo seen l).Nodup := by
  induction l generalizing seen with
  | nil => simp [dedupGo]
  | cons a as ih =>
    unfold dedupGo
    split
    · exact ih seen
    · refine List.Nodup.cons ?_ (ih (a :: seen))
      intro hmem
      exact (mem_dedupGo.mp hmem).2 (List.mem_cons_self a seen)

theorem dedupGo_eq_self {seen l : List α} (hn : l.Nodup)
    (hd : ∀ x ∈ l, x ∉ seen) : dedupGo seen l = l := by
  induction l generalizing seen with
  | nil => simp [dedupGo]
  | cons a as ih =>
    unfold dedupGo
    rw [if_neg (hd a (List.mem_cons_self a as))]
    congr 1
    refine ih hn.of_cons ?_
    intro x hx
    simp only [List.mem_cons, not_or]
    exact ⟨fun hxa => (List.nodup_cons.mp hn).1 (hxa ▸ hx), hd x (List.mem_cons_of_mem a hx)⟩

theorem pdDedup_sublist (l : List α) : List.Sublist (pdDedup l) l :=
  dedupGo_sublist [] l

theorem mem_pdDedup {x : α} {l : List α} : x ∈ pdDedup l ↔ x ∈ l := by
  unfold pdDedup
  rw [mem_dedupGo]
  simp

theorem pdDedup_nodup (l : List α) : (pdDedup l).Nodup :=
  dedupGo_nodup [] l

theorem pdDedup_eq_self {l : List α} (hn : l.Nodup) : pdDedup l = l :=
  dedupGo_eq_self hn (by simp)

theorem pdDedup_length_le (l : List α) : (pdDedup l).length ≤ l.length :=
  (pdDedup_sublist l).length_le

theorem pdDedup_eq_of_duplicatedCount_eq_zero {l : List α}
    (h : duplicatedCount l = 0) : pdDedup l = l := by
  unfold duplicatedCount at h
  exact (pdDedup_sublist l).eq_of_length
    (Nat.le_antisymm (pdDedup_length_le l) (Nat.le_of_sub_eq_zero h))

theorem duplicatedCount_eq_zero_of_nodup {l : List α} (hn : l.Nodup) :
    duplicatedCount l = 0 := by
  unfold duplicatedCount
  rw [pdDedup_eq_self hn, Nat.sub_self]

end DedupLemmas

theorem dedupT_rows (t : Table) : (dedupT t).rows = pdDedup t.rows := by
  unfold dedupT
  split
  · rfl
  · rename_i h
    rw [pdDedup_eq_of_duplicatedCount_eq_zero (Nat.eq_zero_of_not_pos h)]

theorem dedupT_colNames (t : Table) : (dedupT t).colNames = t.colNames := by
  unfold dedupT; split <;> rfl

theorem dedupT_colTypes (t : Table) : (dedupT t).colTypes = t.colTypes := by
  unfold dedupT; split <;> rfl

theorem mem_rows_dedupT {t : Table} {r : List Value} :
    r ∈ (dedupT t).rows ↔ r ∈ t.rows := by
  rw [dedupT_rows]; exact mem_pdDedup

theorem getD_zipWith {α β γ : Type} (f : α → β → γ) (l1 : List α) (l2 : List β)
    (j : ℕ) (d1 : α) (d2 : β) (d : γ) (h1 : j < l1.length) (h2 : j < l2.length) :
    (List.zipWith f l1 l2).getD j d = f (l1.getD j d1) (l2.getD j d2) := by
  induction l1 generalizing l2 j with
  | nil => simp at h1
  | cons a as ih =>
    cases l2 with
    | nil => simp at h2
    | cons b bs =>
      cases j with
      | zero => rfl
      | succ k =>
        simp only [List.zipWith_cons_cons, List.getD_cons_succ]
        exact ih bs k (Nat.lt_of_succ_lt_succ h1) (Nat.lt_of_succ_lt_succ h2)

theorem getD_map_range {β : Type} (n : ℕ) (f : ℕ → β) (j : ℕ) (d : β) (h : j < n) :
    ((List.range n).map f).getD j d = f j := by
  rw [List.getD_eq_getElem?_getD, List.getElem?_map, List.getElem?_range h]
  rfl

theorem fills_length (t : Table) : (fills t).length = t.colTypes.length := by
  simp [fills]

theorem fills_getD {t : Table} {j : ℕ} (h : j < t.colTypes.length) :
    (fills t).getD j none =
      colFillVal (t.colTypes.getD j ColType.date) (getCol t.rows j) := by
  unfold fills
  exact getD_map_range _ _ j none h

theorem cellFill_none (v : Value) : cellFill v none = v := by
  unfold cellFill
  split <;> rfl

theorem mem_getCol {rows : List (List Value)} {j : ℕ} {v : Value} :
    v ∈ getCol rows j ↔ ∃ r ∈ rows, r.getD j Value.missing = v := by
  simp [getCol]

theorem getCol_map_fillRow {rows : List (List Value)} {fs : List (Option Value)}
    {j : ℕ} (hr : ∀ r ∈ rows, j < r.length) (hf : j < fs.length) :
    getCol (rows.map (fillRow fs)) j =
      (getCol rows j).map (fun v => cellFill v (fs.getD j none)) := by
  unfold getCol
  rw [List.map_map, List.map_map]
  refine List.map_congr_left ?_
  intro r hrr
  simp only [Function.comp_apply]
  unfold fillRow
  exact getD_zipWith cellFill r fs j Value.missing none Value.missing (hr r hrr) hf

theorem missingCount_eq_zero_iff {vs : List Value} :
    missingCount vs = 0 ↔ Value.missing ∉ vs := by
  unfold missingCount
  exact List.count_eq_zero

theorem missingTotal_eq_zero_iff {t : Table} :
    missingTotal t = 0 ↔
      ∀ j < t.colTypes.length, missingCount (getCol t.rows j) = 0 := by
  unfold missingTotal
  rw [List.sum_eq_zero_iff]
  constructor
  · intro h j hj
    exact h _ (List.mem_map_of_mem _ (List.mem_range.mpr hj))
  · intro h x hx
    obtain ⟨j, hj, rfl⟩ := List.mem_map.mp hx
    exact h j (List.mem_range.mp hj)

theorem median_isSome {xs : List ℚ} (h : xs ≠ []) : (median xs).isSome := by
  unfold median
  rw [if_neg (by simpa using h)]
  split <;> rfl

theorem exists_count_max {α : Type} [DecidableEq α] (f : α → ℕ) (l : List α)
    (h : l ≠ []) : ∃ a ∈ l, ∀ b ∈ l, f b ≤ f a := by
  induction l with
  | nil => exact absurd rfl h
  | cons a as ih =>
    cases as with
    | nil => exact ⟨a, by simp⟩
    | cons c cs =>
      obtain ⟨m, hm, hmax⟩ := ih (by simp)
      rcases le_total (f m) (f a) with hle | hle
      · refine ⟨a, List.mem_cons_self a _, ?_⟩
        rintro b hb
        rcases List.mem_cons.mp hb with rfl | hb
        · exact le_rfl
        · exact (hmax b hb).trans hle
      · refine ⟨m, List.mem_cons_of_mem a hm, ?_⟩
        rintro b hb
        rcases List.mem_cons.mp hb with rfl | hb
        · exact hle
        · exact hmax b hb

theorem modeStr_isSome {xs : List String} (h : xs ≠ []) : (modeStr xs).isSome := by
  unfold modeStr
  obtain ⟨a, ha, hmax⟩ := exists_count_max (fun b => xs.count b) xs h
  have hmem : a ∈ xs.filter (fun a => xs.all (fun b => xs.count b ≤ xs.count a)) := by
    rw [List.mem_filter]
    refine ⟨ha, ?_⟩
    rw [List.all_eq_true]
    intro b hb
    simpa using hmax b hb
  split
  · rename_i heq
    rw [heq] at hmem
    simp at hmem
  · rfl

theorem strsOf_ne_nil_of_mem {vs : List Value} {s : String}
    (h : Value.str s ∈ vs) : strsOf vs ≠ [] := by
  intro hnil
  have : s ∈ strsOf vs := by
    unfold strsOf
    rw [List.mem_filterMap]
    exact ⟨Value.str s, h, rfl⟩
  rw [hnil] at this
  simp at this

theorem numsOf_ne_nil_of_mem {vs : List Value} {q : ℚ}
    (h : Value.num q ∈ vs) : numsOf vs ≠ [] := by
  intro hnil
  have : q ∈ numsOf vs := by
    unfold numsOf
    rw [List.mem_filterMap]
    exact ⟨Value.num q, h, rfl⟩
  rw [hnil] at this
  simp at this

theorem median_eq_none_iff {xs : List ℚ} : median xs = none ↔ xs = [] := by
  unfold median
  constructor
  · intro h
    by_contra hne
    rw [if_neg (by simpa using hne)] at h
    revert h
    split <;> simp
  · rintro rfl
    simp

theorem numsOf_eq_nil_iff {vs : List Value} :
    numsOf vs = [] ↔ ∀ q : ℚ, Value.num q ∉ vs := by
  unfold numsOf
  rw [List.filterMap_eq_nil_iff]
  constructor
  · rintro h q hq
    have := h _ hq
    simp at this
  · intro h v hv
    cases v with
    | num q => exact absurd hv (h q)
    | str _ => rfl
    | date _ => rfl
    | missing => rfl

theorem crashes_eq_false_iff {t : Table} :
    crashes t = false ↔ ∀ j < t.colTypes.length,
      colCrash (t.colTypes.getD j ColType.date) (getCol t.rows j) = false := by
  unfold crashes
  rw [List.any_eq_false]
  constructor
  · intro h j hj
    simpa using h j (List.mem_range.mpr hj)
  · intro h j hj
    simpa using h j (List.mem_range.mp hj)

/-! #### The two branches of `clean_table` -/

theorem clean_table_no_missing {t : Table} (h : missingTotal (dedupT t) = 0) :
    clean_table t = some (dedupT t) := by
  unfold clean_table
  rw [if_neg (by omega)]

theorem clean_table_missing {t : Table} (h1 : 0 < missingTotal (dedupT t))
    (h2 : crashes (dedupT t) = false) :
    clean_table t =
      some { dedupT t with rows := (dedupT t).rows.map (fillRow (fills (dedupT t))) } := by
  unfold clean_table
  rw [if_pos h1, if_neg (by simp [h2])]

theorem clean_table_some_cases {t t2 : Table} (h : clean_table t = some t2) :
    (missingTotal (dedupT t) = 0 ∧ t2 = dedupT t) ∨
      (0 < missingTotal (dedupT t) ∧ crashes (dedupT t) = false ∧
        t2 = { dedupT t with rows := (dedupT t).rows.map (fillRow (fills (dedupT t))) }) := by
  unfold clean_table at h
  split at h
  · rename_i h1
    split at h
    · exact absurd h (by simp)
    · rename_i h2
      exact Or.inr ⟨h1, by simpa using h2, (Option.some.injEq _ _ ▸ h).symm⟩
  · rename_i h1
    exact Or.inl ⟨by omega, (Option.some.injEq _ _ ▸ h).symm⟩

theorem clean_table_colNames {t t2 : Table} (h : clean_table t = some t2) :
    t2.colNames = t.colNames := by
  rcases clean_table_some_cases h with ⟨_, rfl⟩ | ⟨_, _, rfl⟩ <;>
    simp [dedupT_colNames]

theorem clean_table_colTypes {t t2 : Table} (h : clean_table t = some t2) :
    t2.colTypes = t.colTypes := by
  rcases clean_table_some_cases h with ⟨_, rfl⟩ | ⟨_, _, rfl⟩ <;>
    simp [dedupT_colTypes]

/-! #### Well-formedness is preserved -/

theorem WF_dedupT {t : Table} (h : WF t) : WF (dedupT t) := by
  obtain ⟨hlen, hrows⟩ := h
  refine ⟨by rw [dedupT_colNames, dedupT_colTypes]; exact hlen, ?_⟩
  intro r hr
  rw [dedupT_colTypes]
  exact hrows r (mem_rows_dedupT.mp hr)

theorem colFillVal_shape {ty : ColType} {vs : List Value} {m : Value}
    (h : colFillVal ty vs = some m) :
    (ty = ColType.num ∧ ∃ q, m = Value.num q) ∨
      (ty = ColType.text ∧ ∃ s, m = Value.str s) := by
  cases ty with
  | num =>
    left
    refine ⟨rfl, ?_⟩
    simp only [colFillVal] at h
    split at h
    · rw [Option.map_eq_some'] at h
      obtain ⟨q, _, rfl⟩ := h
      exact ⟨q, rfl⟩
    · exact absurd h (by simp)
  | text =>
    right
    refine ⟨rfl, ?_⟩
    simp only [colFillVal] at h
    split at h
    · rw [Option.map_eq_some'] at h
      obtain ⟨s, _, rfl⟩ := h
      exact ⟨s, rfl⟩
    · exact absurd h (by simp)
  | date => exact absurd h (by simp [colFillVal])

theorem colFillVal_some_cellOk {ty : ColType} {vs : List Value} {m : Value}
    (h : colFillVal ty vs = some m) : cellOk ty m = true := by
  rcases colFillVal_shape h with ⟨rfl, q, rfl⟩ | ⟨rfl, s, rfl⟩ <;> rfl

theorem colFillVal_some_ne_missing {ty : ColType} {vs : List Value} {m : Value}
    (h : colFillVal ty vs = some m) : m ≠ Value.missing := by
  rcases colFillVal_shape h with ⟨rfl, q, rfl⟩ | ⟨rfl, s, rfl⟩ <;> simp

theorem fillRow_length {fs : List (Option Value)} {r : List Value}
    (h : r.length ≤ fs.length) : (fillRow fs r).length = r.length := by
  unfold fillRow
  rw [List.length_zipWith]
  omega

theorem WF_clean_table {t t2 : Table} (hwf : WF t) (h : clean_table t = some t2) :
    WF t2 := by
  rcases clean_table_some_cases h with ⟨_, rfl⟩ | ⟨_, _, rfl⟩
  · exact WF_dedupT hwf
  · have h1 := WF_dedupT hwf
    obtain ⟨hlen, hrows⟩ := h1
    refine ⟨by simpa using hlen, ?_⟩
    intro r2 hr2
    simp only [List.mem_map] at hr2
    obtain ⟨r, hr, rfl⟩ := hr2
    obtain ⟨hrl, hok⟩ := hrows r hr
    have hfl : r.length ≤ (fills (dedupT t)).length := by
      rw [fills_length, hrl]
    have hlen2 : (fillRow (fills (dedupT t)) r).length = r.length := fillRow_length hfl
    refine ⟨by simpa [hlen2] using hrl, ?_⟩
    intro j hj
    rw [hlen2] at hj
    have hgd : (fillRow (fills (dedupT t)) r).getD j Value.missing =
        cellFill (r.getD j Value.missing) ((fills (dedupT t)).getD j none) := by
      unfold fillRow
      exact getD_zipWith cellFill r _ j Value.missing none Value.missing hj (by omega)
    rw [hgd]
    unfold cellFill
    split
    · rename_i hveq
      cases hf : (fills (dedupT t)).getD j none with
      | none => rw [Option.getD_none, hveq]; rfl
      | some m =>
        simp only [Option.getD_some]
        rw [fills_getD (by omega)] at hf
        exact colFillVal_some_cellOk hf
    · exact hok j hj

/-! #### Columns after a successful clean -/

theorem map_cellFill_none (vs : List Value) :
    vs.map (fun v => cellFill v none) = vs := by
  simp [cellFill_none]

theorem missingCount_map_fill_some {vs : List Value} {m : Value}
    (hm : m ≠ Value.missing) :
    missingCount (vs.map (fun v => cellFill v (some m))) = 0 := by
  rw [missingCount_eq_zero_iff]
  intro hmem
  rw [List.mem_map] at hmem
  obtain ⟨v, _, hv⟩ := hmem
  unfold cellFill at hv
  split at hv
  · exact hm (by simpa using hv)
  · rename_i hne
    exact hne hv

theorem missingCount_map_fill_zero {vs : List Value} {f : Option Value}
    (h : missingCount vs = 0) :
    missingCount (vs.map (fun v => cellFill v f)) = 0 := by
  rw [missingCount_eq_zero_iff] at h ⊢
  intro hmem
  rw [List.mem_map] at hmem
  obtain ⟨v, hv, heq⟩ := hmem
  unfold cellFill at heq
  split at heq
  · rename_i hveq
    exact h (hveq ▸ hv)
  · rename_i hne
    exact hne heq

theorem colFillVal_eq_none_of_colClean {ty : ColType} {vs : List Value}
    (h : colClean ty vs) : colFillVal ty vs = none := by
  cases ty with
  | num =>
    rcases h with h | h
    · simp [colFillVal, h]
    · simp only [colFillVal]
      rw [h, median_eq_none_iff.mpr rfl]
      split <;> rfl
  | text => simp [colFillVal, colClean] at h ⊢; simp [h]
  | date => rfl

theorem colCrash_eq_false_of_colClean {ty : ColType} {vs : List Value}
    (h : colClean ty vs) : colCrash ty vs = false := by
  cases ty with
  | num => rfl
  | text =>
    unfold colClean at h
    simp [colCrash, h]
  | date => rfl

theorem missingCount_getCol_sub {rows1 rows2 : List (List Value)} {j : ℕ}
    (hsub : ∀ r ∈ rows1, r ∈ rows2)
    (h : missingCount (getCol rows2 j) = 0) :
    missingCount (getCol rows1 j) = 0 := by
  rw [missingCount_eq_zero_iff] at h ⊢
  intro hmem
  rw [mem_getCol] at hmem
  obtain ⟨r, hr, hrv⟩ := hmem
  exact h (mem_getCol.mpr ⟨r, hsub r hr, hrv⟩)

theorem colClean_sub {ty : ColType} {rows1 rows2 : List (List Value)} {j : ℕ}
    (hsub : ∀ r ∈ rows1, r ∈ rows2)
    (h : colClean ty (getCol rows2 j)) : colClean ty (getCol rows1 j) := by
  cases ty with
  | num =>
    rcases h with h | h
    · exact Or.inl (missingCount_getCol_sub hsub h)
    · refine Or.inr ?_
      rw [numsOf_eq_nil_iff] at h ⊢
      intro q hq
      rw [mem_getCol] at hq
      obtain ⟨r, hr, hrv⟩ := hq
      exact h q (mem_getCol.mpr ⟨r, hsub r hr, hrv⟩)
  | text => exact missingCount_getCol_sub hsub h
  | date => trivial

theorem WF_row_index {t : Table} (hwf : WF t) {r : List Value} (hr : r ∈ t.rows)
    {j : ℕ} (hj : j < t.colTypes.length) : j < r.length := by
  rw [(hwf.2 r hr).1]
  exact hj

theorem getCol_clean_fill {t : Table} (hwf : WF t) {j : ℕ}
    (hj : j < t.colTypes.length) :
    getCol ((dedupT t).rows.map (fillRow (fills (dedupT t)))) j =
      (getCol (dedupT t).rows j).map
        (fun v => cellFill v
          (colFillVal (t.colTypes.getD j ColType.date) (getCol (dedupT t).rows j))) := by
  have h1 := WF_dedupT hwf
  have hjt : j < (dedupT t).colTypes.length := by rw [dedupT_colTypes]; exact hj
  rw [getCol_map_fillRow (fun r hr => WF_row_index h1 hr hjt)
    (by rw [fills_length]; exact hjt)]
  rw [fills_getD hjt, dedupT_colTypes]

theorem clean_post_colClean {t t2 : Table} (hwf : WF t)
    (h : clean_table t = some t2) :
    ∀ j < t2.colTypes.length,
      colClean (t2.colTypes.getD j ColType.date) (getCol t2.rows j) := by
  intro j hj
  have hct := clean_table_colTypes h
  rcases clean_table_some_cases h with ⟨hm, rfl⟩ | ⟨hm, hcr, rfl⟩
  · have h0 := missingTotal_eq_zero_iff.mp hm j hj
    cases hty : (dedupT t).colTypes.getD j ColType.date with
    | num => exact Or.inl h0
    | text => exact h0
    | date => trivial
  · have hj1 : j < t.colTypes.length := by
      rw [hct] at hj
      exact hj
    have hcol : getCol { dedupT t with
          rows := (dedupT t).rows.map (fillRow (fills (dedupT t))) }.rows j =
        (getCol (dedupT t).rows j).map
          (fun v => cellFill v
            (colFillVal (t.colTypes.getD j ColType.date) (getCol (dedupT t).rows j))) :=
      getCol_clean_fill hwf hj1
    have htyeq : ({ dedupT t with
        rows := (dedupT t).rows.map (fillRow (fills (dedupT t))) } : Table).colTypes.getD
          j ColType.date = t.colTypes.getD j ColType.date := by
      simp [dedupT_colTypes]
    rw [hcol, htyeq]
    cases hty : t.colTypes.getD j ColType.date with
    | date => trivial
    | num =>
      by_cases hz : missingCount (getCol (dedupT t).rows j) = 0
      · exact Or.inl (missingCount_map_fill_zero hz)
      · cases hmed : median (numsOf (getCol (dedupT t).rows j)) with
        | some med =>
          have : colFillVal ColType.num (getCol (dedupT t).rows j) =
              some (Value.num med) := by
            simp [colFillVal, Nat.pos_of_ne_zero hz, hmed]
          rw [this]
          exact Or.inl (missingCount_map_fill_some (by simp))
        | none =>
          have hnil : numsOf (getCol (dedupT t).rows j) = [] :=
            median_eq_none_iff.mp hmed
          have : colFillVal ColType.num (getCol (dedupT t).rows j) = none := by
            simp [colFillVal, hmed]
          rw [this, map_cellFill_none]
          exact Or.inr hnil
    | text =>
      by_cases hz : missingCount (getCol (dedupT t).rows j) = 0
      · exact missingCount_map_fill_zero hz
      · have hcrj := crashes_eq_false_iff.mp hcr j
          (by rw [dedupT_colTypes]; exact hj1)
        rw [dedupT_colTypes, hty] at hcrj
        simp only [colCrash, if_pos (Nat.pos_of_ne_zero hz)] at hcrj
        rw [Option.isNone_eq_false_iff, Option.isSome_iff_exists] at hcrj
        obtain ⟨m, hmode⟩ := hcrj
        have : colFillVal ColType.text (getCol (dedupT t).rows j) =
            some (Value.str m) := by
          simp [colFillVal, Nat.pos_of_ne_zero hz, hmode]
        rw [this]
        exact missingCount_map_fill_some (by simp)

theorem map_id_of_mem {α : Type} {l : List α} {f : α → α}
    (h : ∀ a ∈ l, f a = a) : l.map f = l := by
  induction l with
  | nil => rfl
  | cons a as ih =>
    rw [List.map_cons, h a (List.mem_cons_self a as),
      ih (fun b hb => h b (List.mem_cons_of_mem a hb))]

theorem fillRow_eq_self {fs : List (Option Value)} {r : List Value}
    (hlen : r.length ≤ fs.length) (hf : ∀ f ∈ fs, f = none) :
    fillRow fs r = r := by
  induction r generalizing fs with
  | nil => rfl
  | cons v vs ih =>
    cases fs with
    | nil => simp at hlen
    | cons f fsr =>
      unfold fillRow
      rw [List.zipWith_cons_cons]
      rw [hf f (List.mem_cons_self f fsr), cellFill_none]
      congr 1
      exact ih (Nat.le_of_succ_le_succ hlen)
        (fun g hg => hf g (List.mem_cons_of_mem f hg))

theorem forall₂_fillRow_rel {fs : List (Option Value)} {r : List Value}
    (hlen : r.length ≤ fs.length) :
    List.Forall₂ (fun a b => a = b ∨ a = Value.missing) r (fillRow fs r) := by
  induction r generalizing fs with
  | nil => exact List.Forall₂.nil
  | cons v vs ih =>
    cases fs with
    | nil => simp at hlen
    | cons f fsr =>
      unfold fillRow
      rw [List.zipWith_cons_cons]
      refine List.Forall₂.cons ?_ (ih (Nat.le_of_succ_le_succ hlen))
      by_cases hm : v = Value.missing
      · exact Or.inr hm
      · refine Or.inl ?_
        unfold cellFill
        rw [if_neg hm]

theorem clean_table_of_colClean {t2 : Table} (hwf : WF t2)
    (h : ∀ j < t2.colTypes.length,
      colClean (t2.colTypes.getD j ColType.date) (getCol t2.rows j)) :
    clean_table t2 = some (dedupT t2) := by
  have hQ3 : ∀ j < (dedupT t2).colTypes.length,
      colClean ((dedupT t2).colTypes.getD j ColType.date)
        (getCol (dedupT t2).rows j) := by
    intro j hj
    rw [dedupT_colTypes] at hj ⊢
    exact colClean_sub (fun r hr => mem_rows_dedupT.mp hr) (h j hj)
  by_cases hm : missingTotal (dedupT t2) = 0
  · exact clean_table_no_missing hm
  · have hcr : crashes (dedupT t2) = false :=
      crashes_eq_false_iff.mpr (fun j hj => colCrash_eq_false_of_colClean (hQ3 j hj))
    rw [clean_table_missing (Nat.pos_of_ne_zero hm) hcr]
    have hfn : ∀ f ∈ fills (dedupT t2), f = none := by
      intro f hf
      unfold fills at hf
      rw [List.mem_map] at hf
      obtain ⟨j, hj, rfl⟩ := hf
      exact colFillVal_eq_none_of_colClean (hQ3 j (List.mem_range.mp hj))
    have hrows : (dedupT t2).rows.map (fillRow (fills (dedupT t2))) =
        (dedupT t2).rows := by
      have := WF_dedupT hwf
      refine map_id_of_mem ?_
      intro r hr
      exact fillRow_eq_self (by rw [fills_length, (this.2 r hr).1]) hfn
    rw [hrows]

theorem missingTotal_dedupT_eq_zero {t : Table} (h : missingTotal t = 0) :
    missingTotal (dedupT t) = 0 := by
  rw [missingTotal_eq_zero_iff] at h ⊢
  intro j hj
  rw [dedupT_colTypes] at hj
  exact missingCount_getCol_sub (fun r hr => mem_rows_dedupT.mp hr) (h j hj)

theorem dedupT_eq_self_of_nodup {t : Table} (h : t.rows.Nodup) : dedupT t = t := by
  unfold dedupT
  rw [duplicatedCount_eq_zero_of_nodup h]
  simp

/-! #### Session-level facts about the operations -/

theorem show_overview_fst (s : Session) : (show_overview s).1 = s := by
  obtain ⟨df, fn⟩ := s
  cases df <;> rfl

theorem show_statistics_fst (s : Session) : (show_statistics s).1 = s := by
  obtain ⟨df, fn⟩ := s
  cases df <;> rfl

theorem create_visualizations_fst (s : Session) :
    (create_visualizations s).1 = s := by
  obtain ⟨df, fn⟩ := s
  cases df <;> rfl

theorem export_report_fst (s : Session) : (export_report s).1 = s := by
  obtain ⟨df, fn⟩ := s
  cases df <;> rfl

theorem clean_data_session {s s2 : Session} {out : CleanOut}
    (h : clean_data s = some (s2, out)) :
    s2.filename = s.filename ∧ s2.df.isSome = s.df.isSome := by
  obtain ⟨df, fn⟩ := s
  cases df with
  | none =>
    simp only [clean_data, Option.some.injEq, Prod.mk.injEq] at h
    rw [← h.1]
    exact ⟨rfl, rfl⟩
  | some t =>
    simp only [clean_data] at h
    cases hct : clean_table t with
    | none => rw [hct] at h; simp at h
    | some t3 =>
      rw [hct] at h
      simp only [Option.map_some', Option.some.injEq, Prod.mk.injEq] at h
      rw [← h.1]
      exact ⟨rfl, rfl⟩

theorem load_data_fst_cases (rc re : String → Except String Table)
    (s : Session) (p : String) :
    (load_data rc re s p).1 = s ∨
      ∃ t, (load_data rc re s p).1 = ⟨some t, some (pathName p)⟩ := by
  by_cases h1 : lowerStr (pathSuffix p) = ".csv"
  · cases h : rc p with
    | ok t => right; exact ⟨t, by simp [load_data, if_pos h1, h]⟩
    | error e => left; simp [load_data, if_pos h1, h]
  · by_cases h2 : lowerStr (pathSuffix p) = ".xlsx" ∨ lowerStr (pathSuffix p) = ".xls"
    · cases h : re p with
      | ok t => right; exact ⟨t, by simp [load_data, if_neg h1, if_pos h2, h]⟩
      | error e => left; simp [load_data, if_neg h1, if_pos h2, h]
    · left
      simp [load_data, if_neg h1, if_neg h2]

/-! #### Menu-step evaluation lemmas -/

theorem menu_step_choice3 (rc re : String → Except String Table)
    (pin : String) (s : Session) {line : String} (h : strip line = "3") :
    menu_step rc re pin s line = some (s, Cont.loop) := by
  unfold menu_step
  rw [h, if_neg (by decide), if_neg (by decide), if_pos rfl, show_overview_fst]

theorem menu_step_choice4 (rc re : String → Except String Table)
    (pin : String) (s : Session) {line : String} (h : strip line = "4") :
    menu_step rc re pin s line = some (s, Cont.loop) := by
  unfold menu_step
  rw [h, if_neg (by decide), if_neg (by decide), if_neg (by decide), if_pos rfl,
    show_statistics_fst]

theorem menu_step_choice5 (rc re : String → Except String Table)
    (pin : String) (s : Session) {line : String} (h : strip line = "5") :
    menu_step rc re pin s line =
      (clean_data s).map (fun r => (r.1, Cont.loop)) := by
  unfold menu_step
  rw [h, if_neg (by decide), if_neg (by decide), if_neg (by decide),
    if_neg (by decide), if_pos rfl]

theorem menu_step_choice6 (rc re : String → Except String Table)
    (pin : String) (s : Session) {line : String} (h : strip line = "6") :
    menu_step rc re pin s line = some (s, Cont.loop) := by
  unfold menu_step
  rw [h, if_neg (by decide), if_neg (by decide), if_neg (by decide),
    if_neg (by decide), if_neg (by decide), if_pos rfl, create_visualizations_fst]

theorem menu_step_choice7 (rc re : String → Except String Table)
    (pin : String) (s : Session) {line : String} (h : strip line = "7") :
    menu_step rc re pin s line = some (s, Cont.loop) := by
  unfold menu_step
  rw [h, if_neg (by decide), if_neg (by decide), if_neg (by decide),
    if_neg (by decide), if_neg (by decide), if_neg (by decide), if_pos rfl,
    export_report_fst]

theorem menu_step_choice8 (rc re : String → Except String Table)
    (pin : String) (s : Session) {line : String} (h : strip line = "8") :
    menu_step rc re pin s line = some (s, Cont.halt) := by
  unfold menu_step
  rw [h, if_neg (by decide), if_neg (by decide), if_neg (by decide),
    if_neg (by decide), if_neg (by decide), if_neg (by decide),
    if_neg (by decide), if_pos rfl]

theorem menu_step_invalid (rc re : String → Except String Table)
    (pin : String) (s : Session) {line : String}
    (h : strip line ∉ ["1", "2", "3", "4", "5", "6", "7", "8"]) :
    menu_step rc re pin s line = some (s, Cont.loop) := by
  simp only [List.mem_cons, not_or] at h
  obtain ⟨h1, h2, h3, h4, h5, h6, h7, h8, -⟩ := h
  unfold menu_step
  rw [if_neg h1, if_neg h2, if_neg h3, if_neg h4, if_neg h5, if_neg h6,
    if_neg h7, if_neg h8]

theorem inv_of_parts {s3 s : Session} (h1 : s3.filename = s.filename)
    (h2 : s3.df.isSome = s.df.isSome)
    (hinv : s.df = none ↔ s.filename = none) :
    s3.df = none ↔ s3.filename = none := by
  rw [h1]
  cases hd3 : s3.df with
  | none =>
    rw [hd3] at h2
    cases hd : s.df with
    | none => simpa using hinv.mp hd
    | some t => rw [hd] at h2; simp at h2
  | some t =>
    rw [hd3] at h2
    cases hd : s.df with
    | none => rw [hd] at h2; simp at h2
    | some u =>
      have hf : s.filename ≠ none := by
        intro hf
        have hd0 := hinv.mpr hf
        rw [hd] at hd0
        exact Option.noConfusion hd0
      simp [hf]

theorem menu_step_inv {rc re : String → Except String Table}
    {pin line : String} {s s2 : Session} {c : Cont}
    (hinv : s.df = none ↔ s.filename = none)
    (h : menu_step rc re pin s line = some (s2, c)) :
    s2.df = none ↔ s2.filename = none := by
  by_cases h1 : strip line = "1"
  · unfold menu_step at h
    rw [if_pos h1] at h
    simp only [Option.some.injEq, Prod.mk.injEq] at h
    obtain ⟨hX, _⟩ := h
    rcases load_data_fst_cases rc re s (strip pin) with hc | ⟨t, hc⟩
    · rw [hc] at hX
      rw [← hX]
      exact hinv
    · rw [hc] at hX
      rw [← hX]
      simp
  by_cases h2 : strip line = "2"
  · unfold menu_step at h
    rw [if_neg h1, if_pos h2] at h
    simp only [Option.some.injEq, Prod.mk.injEq] at h
    obtain ⟨hX, _⟩ := h
    rw [← hX]
    simp [create_sample_data]
  by_cases h3 : strip line = "3"
  · rw [menu_step_choice3 rc re pin s h3] at h
    simp only [Option.some.injEq, Prod.mk.injEq] at h
    rw [← h.1]
    exact hinv
  by_cases h4 : strip line = "4"
  · rw [menu_step_choice4 rc re pin s h4] at h
    simp only [Option.some.injEq, Prod.mk.injEq] at h
    rw [← h.1]
    exact hinv
  by_cases h5 : strip line = "5"
  · rw [menu_step_choice5 rc re pin s h5] at h
    cases hcd : clean_data s with
    | none => rw [hcd] at h; simp at h
    | some r =>
      obtain ⟨s3, out⟩ := r
      rw [hcd] at h
      simp only [Option.map_some', Option.some.injEq, Prod.mk.injEq] at h
      obtain ⟨hX, _⟩ := h
      rw [← hX]
      obtain ⟨hfn, hdf⟩ := clean_data_session hcd
      exact inv_of_parts hfn hdf hinv
  by_cases h6 : strip line = "6"
  · rw [menu_step_choice6 rc re pin s h6] at h
    simp only [Option.some.injEq, Prod.mk.injEq] at h
    rw [← h.1]
    exact hinv
  by_cases h7 : strip line = "7"
  · rw [menu_step_choice7 rc re pin s h7] at h
    simp only [Option.some.injEq, Prod.mk.injEq] at h
    rw [← h.1]
    exact hinv
  by_cases h8 : strip line = "8"
  · rw [menu_step_choice8 rc re pin s h8] at h
    simp only [Option.some.injEq, Prod.mk.injEq] at h
    rw [← h.1]
    exact hinv
  · rw [menu_step_invalid rc re pin s (by simp [h1, h2, h3, h4, h5, h6, h7, h8])] at h
    simp only [Option.some.injEq, Prod.mk.injEq] at h
    rw [← h.1]
    exact hinv

theorem runMenu_inv {rc re : String → Except String Table}
    {inputs : List (String × String)} {s s2 : Session}
    (hinv : s.df = none ↔ s.filename = none)
    (h : runMenu rc re s inputs = some s2) :
    s2.df = none ↔ s2.filename = none := by
  induction inputs generalizing s with
  | nil =>
    simp only [runMenu, Option.some.injEq] at h
    rw [← h]
    exact hinv
  | cons ip rest ih =>
    obtain ⟨line, pin⟩ := ip
    simp only [runMenu] at h
    cases hms : menu_step rc re pin s line with
    | none => rw [hms] at h; simp at h
    | some r =>
      obtain ⟨s3, c⟩ := r
      rw [hms] at h
      cases c with
      | halt =>
        simp only [Option.some.injEq] at h
        rw [← h]
        exact menu_step_inv hinv hms
      | loop => exact ih (menu_step_inv hinv hms) h

/-! ### The claims -/

/-- **C3.** For every session state and every path whose lower-cased
extension is not `.csv`, `.xlsx` or `.xls`, `load_data` reports
`unsupported` and returns the session unchanged; and for every path with
a recognised extension whose parser fails, it reports `loadError` with
the underlying cause and returns the session unchanged. -/
theorem load_failure_preserves_session (rc re : String → Except String Table)
    (s : Session) (p : String) :
    (lowerStr (pathSuffix p) ∉ [".csv", ".xlsx", ".xls"] →
      load_data rc re s p = (s, .unsupported (lowerStr (pathSuffix p)))) ∧
    (∀ e, lowerStr (pathSuffix p) = ".csv" → rc p = .error e →
      load_data rc re s p = (s, .loadError e)) ∧
    (∀ e, (lowerStr (pathSuffix p) = ".xlsx" ∨ lowerStr (pathSuffix p) = ".xls") →
      re p = .error e → load_data rc re s p = (s, .loadError e)) := by
  refine ⟨?_, ?_, ?_⟩
  · intro h
    simp only [List.mem_cons, List.mem_singleton, not_or] at h
    obtain ⟨h1, h2, h3⟩ := h
    unfold load_data
    rw [if_neg h1, if_neg (by simp [h2, h3])]
  · intro e h1 h2
    unfold load_data
    rw [if_pos h1, h2]
  · intro e h1 h2
    have hne : lowerStr (pathSuffix p) ≠ ".csv" := by
      rcases h1 with h | h <;> rw [h] <;> decide
    unfold load_data
    rw [if_neg hne, if_pos h1, h2]

/-- Witness for C3: a `.txt` path is rejected with the session intact,
and failing parsers on `.csv` and `.XLSX` paths report the cause with
the session intact. -/
theorem load_failure_preserves_session_witness :
    load_data failParser failParser initSession "data.txt" =
      (initSession, .unsupported ".txt") ∧
    load_data failParser failParser initSession "data.csv" =
      (initSession, .loadError "boom") ∧
    load_data failParser failParser initSession "book.XLSX" =
      (initSession, .loadError "boom") := by
  refine ⟨?_, ?_, ?_⟩
  · have h := (load_failure_preserves_session failParser failParser initSession
      "data.txt").1 (by decide)
    rw [show lowerStr (pathSuffix "data.txt") = ".txt" from by decide] at h
    exact h
  · exact (load_failure_preserves_session failParser failParser initSession
      "data.csv").2.1 "boom" (by decide) rfl
  · exact (load_failure_preserves_session failParser failParser initSession
      "book.XLSX").2.2 "boom" (by decide) rfl

/-- **C4.** Every Reporter, Cleaner or Visualizer operation invoked with
no table loaded emits the "no data" diagnostic, writes no file, and
leaves the session unchanged. -/
theorem no_table_ops_are_noops (s : Session) (h : s.df = none) :
    show_overview s = (s, .noData) ∧
    show_statistics s = (s, .noData) ∧
    clean_data s = some (s, .noData) ∧
    create_visualizations s = (s, ⟨true, [], none, none, none, none⟩) ∧
    export_report s = (s, ⟨true, []⟩) := by
  obtain ⟨df, fn⟩ := s
  cases h
  exact ⟨rfl, rfl, rfl, rfl, rfl⟩

/-- Witness for C4: the five operations on the fresh session. -/
theorem no_table_ops_are_noops_witness :
    show_overview initSession = (initSession, .noData) ∧
    show_statistics initSession = (initSession, .noData) ∧
    clean_data initSession = some (initSession, .noData) ∧
    create_visualizations initSession =
      (initSession, ⟨true, [], none, none, none, none⟩) ∧
    export_report initSession = (initSession, ⟨true, []⟩) :=
  no_table_ops_are_noops initSession rfl

/-- **C5.** `create_sample_data` is deterministic: it is one fixed
function of no inputs but the session, replacing any session state by
the same 100-row, 6-column table whose `Price` cell equals
`round(Sales / Units, 2)` in every row, and the same source name. -/
theorem load_sample_deterministic :
    create_sample_data =
      (fun _ => ⟨some sampleTable, some "sample_sales_data.csv"⟩) ∧
    sampleTable.rows.length = 100 ∧
    sampleTable.colNames.length = 6 ∧
    sampleTable.rows.Forall (fun r => r.length = 6 ∧ priceOk r) := by
  refine ⟨rfl, by simp [sampleTable], rfl, ?_⟩
  rw [List.forall_iff_forall_mem]
  intro r hr
  simp only [sampleTable] at hr
  rw [List.mem_map] at hr
  obtain ⟨i, _, rfl⟩ := hr
  exact ⟨rfl, rfl⟩

/-- **C6.** The concrete Region/Sales scenario: `show_overview` reports
3 rows, 2 columns and 0 missing values; `clean_data` removes exactly the
1 duplicate row and leaves 2 rows. -/
theorem region_sales_scenario :
    show_overview sRS = (sRS, .report 3 2 0) ∧
    duplicatedCount tblRS.rows = 1 ∧
    clean_data sRS =
      some (⟨some tblRSc, some "region_sales.csv"⟩, .report 1 0 3 2) ∧
    tblRSc.rows.length = 2 := by
  decide

/-- **C8.** With a table loaded, `create_visualizations` always writes
the dashboard image (noData not raised), and each panel is blank exactly
when its precondition fails; in particular with no numeric column
panels 1, 3 and 4 are blank yet the file is still produced. -/
theorem visualize_without_numeric (s : Session) (t : Table)
    (h : s.df = some t) :
    (create_visualizations s).1 = s ∧
    (create_visualizations s).2.noData = false ∧
    (create_visualizations s).2.writes = ["analysis_dashboard.png"] ∧
    (numericNames t = [] → (create_visualizations s).2.panel1 = none ∧
      (create_visualizations s).2.panel3 = none ∧
      (create_visualizations s).2.panel4 = none) ∧
    ((create_visualizations s).2.panel1 = none ↔ numericNames t = []) ∧
    ((create_visualizations s).2.panel2 = none ↔ catNames t = []) ∧
    ((create_visualizations s).2.panel3 = none ↔ (numericNames t).length < 2) ∧
    ((create_visualizations s).2.panel4 = none ↔ (numericNames t).length < 2) := by
  obtain ⟨df, fn⟩ := s
  cases h
  simp only [create_visualizations]
  refine ⟨by trivial, by trivial, by trivial, ?_, ?_, ?_, ?_, ?_⟩
  · intro hn
    refine ⟨?_, ?_, ?_⟩ <;> simp [histPanel, heatmapPanel, scatterPanel, hn]
  · simp [histPanel]
  · simp [barPanel]
  · rcases Nat.lt_or_ge (numericNames t).length 2 with h2 | h2
    · have hh : heatmapPanel t = none := by
        unfold heatmapPanel
        rw [if_neg (by omega)]
      rw [hh]
      simpa using h2
    · have hh : heatmapPanel t = some (.heatmap (numericNames t)) := by
        unfold heatmapPanel
        rw [if_pos h2]
      rw [hh]
      constructor
      · intro hc
        exact absurd hc (by simp)
      · intro hc
        omega
  · rcases hn : numericNames t with _ | ⟨a, _ | ⟨b, l⟩⟩ <;> simp [scatterPanel, hn]

/-- **C1 counterexample.** Cleaning is not idempotent: on the
one-numeric-column table with rows `[1, missing]`, the first clean fills
the missing cell with the median `1`, which makes the two rows equal, so
the second clean removes one duplicate row and changes the table. -/
theorem clean_not_idempotent :
    clean_table exT1 = some exT1c ∧
    duplicatedCount exT1c.rows = 1 ∧
    clean_table exT1c = some exT1cc ∧
    exT1cc ≠ exT1c := by
  decide

/-- **C1 amended.** Running `clean` twice in succession: the second run
fills no values — it is exactly duplicate removal on the once-cleaned
table (removing only duplicates the first run's imputation created) —
and when the table had no missing values to begin with, the second run
changes nothing at all. -/
theorem clean_second_run_dedup_only (t t2 : Table) (hwf : WF t)
    (h : clean_table t = some t2) :
    clean_table t2 = some (dedupT t2) ∧
    (missingTotal t = 0 → clean_table t2 = some t2) := by
  have h1 : clean_table t2 = some (dedupT t2) :=
    clean_table_of_colClean (WF_clean_table hwf h) (clean_post_colClean hwf h)
  refine ⟨h1, ?_⟩
  intro hm
  have hm1 : missingTotal (dedupT t) = 0 := missingTotal_dedupT_eq_zero hm
  have ht2 : t2 = dedupT t := by
    have h0 := clean_table_no_missing (t := t) hm1
    rw [h] at h0
    exact Option.some.inj h0
  have hnd : t2.rows.Nodup := by
    rw [ht2, dedupT_rows]
    exact pdDedup_nodup _
  rw [h1, dedupT_eq_self_of_nodup hnd]

/-- Witness for the amended C1: on the duplicate-free, missing-free
Region/Sales table the second clean is the identity. -/
theorem clean_second_run_dedup_only_witness :
    WF tblRS ∧ clean_table tblRS = some tblRSc ∧
    clean_table tblRSc = some tblRSc := by
  refine ⟨by decide, by decide, ?_⟩
  exact (clean_second_run_dedup_only tblRS tblRSc (by decide) (by decide)).2
    (by decide)

/-- **C2 counterexample.** A datetime column is selected by neither
imputation loop: on the table whose only column is a datetime column
with one date and one missing value, `clean` succeeds and returns the
table unchanged, so a column that had a non-missing value before
cleaning still has a missing value afterwards. -/
theorem clean_skips_datetime_column :
    getCol dateT.rows 0 = [Value.date 0, Value.missing] ∧
    clean_table dateT = some dateT ∧
    missingCount (getCol dateT.rows 0) = 1 := by
  decide

/-- **C2 amended.** After a successful `clean`, the missing count is
zero in every numeric or textual column that had at least one
non-missing value before cleaning; the column's cells are those of the
deduplicated table with each missing cell replaced by the column's fill
value (the median of its non-missing entries for a numeric column, the
most frequent value for a textual one, as computed by `colFillVal` on
the deduplicated table).  Datetime columns are not imputed. -/
theorem clean_fills_num_text_columns (t t2 : Table) (j : ℕ) (r : List Value)
    (hwf : WF t) (h : clean_table t = some t2) (hj : j < t.colTypes.length)
    (hty : t.colTypes.getD j ColType.date = ColType.num ∨
      t.colTypes.getD j ColType.date = ColType.text)
    (hr : r ∈ t.rows) (hv : r.getD j Value.missing ≠ Value.missing) :
    missingCount (getCol t2.rows j) = 0 ∧
    getCol t2.rows j =
      (getCol (dedupT t).rows j).map
        (fun v => cellFill v
          (colFillVal (t.colTypes.getD j ColType.date)
            (getCol (dedupT t).rows j))) := by
  have hcell := (hwf.2 r hr).2 j (WF_row_index hwf hr hj)
  have hr1 : r ∈ (dedupT t).rows := mem_rows_dedupT.mpr hr
  rcases clean_table_some_cases h with ⟨hm, rfl⟩ | ⟨hm, hcr, rfl⟩
  · have h0 : missingCount (getCol (dedupT t).rows j) = 0 :=
      missingTotal_eq_zero_iff.mp hm j (by rw [dedupT_colTypes]; exact hj)
    have hfv : colFillVal (t.colTypes.getD j ColType.date)
        (getCol (dedupT t).rows j) = none := by
      rcases hty with hty | hty <;> rw [hty] <;> simp [colFillVal, h0]
    rw [hfv, map_cellFill_none]
    exact ⟨h0, rfl⟩
  · have heq := getCol_clean_fill hwf hj
    refine ⟨?_, heq⟩
    rw [heq]
    by_cases hz : missingCount (getCol (dedupT t).rows j) = 0
    · exact missingCount_map_fill_zero hz
    · rcases hty with hty | hty
      · obtain ⟨q, hq⟩ : ∃ q, r.getD j Value.missing = Value.num q := by
          cases hvv : r.getD j Value.missing with
          | missing => exact absurd hvv hv
          | num q => exact ⟨q, rfl⟩
          | str a => rw [hty, hvv] at hcell; simp [cellOk] at hcell
          | date d => rw [hty, hvv] at hcell; simp [cellOk] at hcell
        have hmemq : Value.num q ∈ getCol (dedupT t).rows j :=
          mem_getCol.mpr ⟨r, hr1, hq⟩
        obtain ⟨med, hmed⟩ := Option.isSome_iff_exists.mp
          (median_isSome (numsOf_ne_nil_of_mem hmemq))
        have hfv : colFillVal (t.colTypes.getD j ColType.date)
            (getCol (dedupT t).rows j) = some (Value.num med) := by
          rw [hty]
          simp [colFillVal, Nat.pos_of_ne_zero hz, hmed]
        rw [hfv]
        exact missingCount_map_fill_some (by simp)
      · have hcrj := crashes_eq_false_iff.mp hcr j
          (by rw [dedupT_colTypes]; exact hj)
        rw [dedupT_colTypes, hty] at hcrj
        simp only [colCrash, if_pos (Nat.pos_of_ne_zero hz)] at hcrj
        rw [Option.isNone_eq_false_iff, Option.isSome_iff_exists] at hcrj
        obtain ⟨m, hmode⟩ := hcrj
        have hfv : colFillVal (t.colTypes.getD j ColType.date)
            (getCol (dedupT t).rows j) = some (Value.str m) := by
          rw [hty]
          simp [colFillVal, Nat.pos_of_ne_zero hz, hmode]
        rw [hfv]
        exact missingCount_map_fill_some (by simp)

/-- Witness for the amended C2: on the `[1, missing]` numeric column the
clean fills the missing cell and leaves no missing value. -/
theorem clean_fills_num_text_columns_witness :
    clean_table exT1 = some exT1c ∧
    missingCount (getCol exT1c.rows 0) = 0 := by
  refine ⟨by decide, ?_⟩
  exact (clean_fills_num_text_columns exT1 exT1c 0 [Value.num 1] (by decide)
    (by decide) (by decide) (Or.inl (by decide)) (by decide) (by decide)).1

/-- **C10.** Frame conditions of `clean`: the session's source name is
unchanged; the table keeps its column names and types; the row count
never grows; the kept rows are the first occurrences, in order (the
deduplicated row list is a duplicate-free sublist of the original with
the same members), and each surviving row differs from its original only
at cells that were missing. -/
theorem clean_frame_conditions (s : Session) (t : Table) (s2 : Session)
    (out : CleanOut) (hdf : s.df = some t) (hwf : WF t)
    (h : clean_data s = some (s2, out)) :
    s2.filename = s.filename ∧
    ∃ t2, s2.df = some t2 ∧
      t2.colNames = t.colNames ∧ t2.colTypes = t.colTypes ∧
      t2.rows.length ≤ t.rows.length ∧
      List.Sublist (pdDedup t.rows) t.rows ∧
      (pdDedup t.rows).Nodup ∧
      (∀ r, r ∈ pdDedup t.rows ↔ r ∈ t.rows) ∧
      List.Forall₂ (List.Forall₂ (fun a b => a = b ∨ a = Value.missing))
        (pdDedup t.rows) t2.rows := by
  obtain ⟨df, fn⟩ := s
  cases hdf
  simp only [clean_data] at h
  cases hct : clean_table t with
  | none => rw [hct] at h; simp at h
  | some t2 =>
    rw [hct] at h
    simp only [Option.map_some', Option.some.injEq, Prod.mk.injEq] at h
    obtain ⟨h1, _⟩ := h
    rw [← h1]
    refine ⟨rfl, t2, rfl, clean_table_colNames hct, clean_table_colTypes hct,
      ?_, pdDedup_sublist t.rows, pdDedup_nodup t.rows,
      fun r => mem_pdDedup, ?_⟩
    · rcases clean_table_some_cases hct with ⟨_, rfl⟩ | ⟨_, _, rfl⟩
      · rw [dedupT_rows]
        exact pdDedup_length_le t.rows
      · simp only [List.length_map, dedupT_rows]
        exact pdDedup_length_le t.rows
    · rcases clean_table_some_cases hct with ⟨_, rfl⟩ | ⟨_, _, rfl⟩
      · rw [dedupT_rows]
        exact List.forall₂_same.mpr (fun r _ => List.forall₂_same.mpr
          (fun v _ => Or.inl rfl))
      · simp only [dedupT_rows]
        rw [List.forall₂_map_right_iff]
        refine List.forall₂_same.mpr ?_
        intro r hrr
        refine forall₂_fillRow_rel ?_
        rw [fills_length, dedupT_colTypes,
          (hwf.2 r (mem_pdDedup.mp hrr)).1]

/-- Witness for C10: cleaning the Region/Sales session keeps the source
name. -/
theorem clean_frame_conditions_witness :
    clean_data sRS =
      some (⟨some tblRSc, some "region_sales.csv"⟩, .report 1 0 3 2) ∧
    (⟨some tblRSc, some "region_sales.csv"⟩ : Session).filename =
      sRS.filename := by
  refine ⟨by decide, ?_⟩
  exact (clean_frame_conditions sRS tblRS
    ⟨some tblRSc, some "region_sales.csv"⟩ (.report 1 0 3 2) rfl (by decide)
    (by decide)).1

/-- **C7.** In the menu loop: any input line whose stripped form is not
one of the eight menu digits reports an error and re-prompts with the
session unchanged; commands 3 to 7 keep the loop running and never
change whether a table is loaded; command 8 terminates the loop with the
session unchanged. -/
theorem menu_invalid_and_readonly (rc re : String → Except String Table)
    (pin : String) (s : Session) (line : String) :
    (strip line ∉ ["1", "2", "3", "4", "5", "6", "7", "8"] →
      menu_step rc re pin s line = some (s, Cont.loop)) ∧
    (strip line ∈ ["3", "4", "5", "6", "7"] →
      ∀ s2 c, menu_step rc re pin s line = some (s2, c) →
        s2.df.isSome = s.df.isSome ∧ c = Cont.loop) ∧
    (strip line = "8" → menu_step rc re pin s line = some (s, Cont.halt)) := by
  refine ⟨menu_step_invalid rc re pin s, ?_, menu_step_choice8 rc re pin s⟩
  intro hmem s2 c h
  simp only [List.mem_cons, List.not_mem_nil, or_false] at hmem
  rcases hmem with hc | hc | hc | hc | hc
  · rw [menu_step_choice3 rc re pin s hc] at h
    simp only [Option.some.injEq, Prod.mk.injEq] at h
    exact ⟨by rw [← h.1], h.2.symm⟩
  · rw [menu_step_choice4 rc re pin s hc] at h
    simp only [Option.some.injEq, Prod.mk.injEq] at h
    exact ⟨by rw [← h.1], h.2.symm⟩
  · rw [menu_step_choice5 rc re pin s hc] at h
    cases hcd : clean_data s with
    | none => rw [hcd] at h; simp at h
    | some r =>
      obtain ⟨s3, out⟩ := r
      rw [hcd] at h
      simp only [Option.map_some', Option.some.injEq, Prod.mk.injEq] at h
      refine ⟨?_, h.2.symm⟩
      rw [← h.1]
      exact (clean_data_session hcd).2
  · rw [menu_step_choice6 rc re pin s hc] at h
    simp only [Option.some.injEq, Prod.mk.injEq] at h
    exact ⟨by rw [← h.1], h.2.symm⟩
  · rw [menu_step_choice7 rc re pin s hc] at h
    simp only [Option.some.injEq, Prod.mk.injEq] at h
    exact ⟨by rw [← h.1], h.2.symm⟩

/-- Witness for C7: an out-of-range line re-prompts with the session
unchanged, command 5 keeps a table loaded, and command 8 halts. -/
theorem menu_invalid_and_readonly_witness :
    menu_step failParser failParser "" sRS " 9 " = some (sRS, Cont.loop) ∧
    ((⟨some tblRSc, some "region_sales.csv"⟩ : Session).df.isSome =
        sRS.df.isSome ∧ Cont.loop = Cont.loop) ∧
    menu_step failParser failParser "" sRS "8" = some (sRS, Cont.halt) := by
  refine ⟨?_, ?_, ?_⟩
  · exact (menu_invalid_and_readonly failParser failParser "" sRS " 9 ").1
      (by decide)
  · exact (menu_invalid_and_readonly failParser failParser "" sRS " 5 ").2.1
      (by decide) ⟨some tblRSc, some "region_sales.csv"⟩ Cont.loop (by decide)
  · exact (menu_invalid_and_readonly failParser failParser "" sRS "8").2.2
      (by decide)

/-- **C9.** The session's table and source name are set or unset
together: the invariant holds initially, is preserved by every sequence
of menu commands, and a successful load or a sample generation sets
both. -/
theorem session_table_iff_filename :
    (initSession.df = none ↔ initSession.filename = none) ∧
    (∀ rc re : String → Except String Table,
      ∀ inputs : List (String × String), ∀ s2 : Session,
        runMenu rc re initSession inputs = some s2 →
          (s2.df = none ↔ s2.filename = none)) ∧
    (∀ rc re : String → Except String Table, ∀ s : Session, ∀ p : String,
      (load_data rc re s p).2 = LoadOutcome.success →
        (load_data rc re s p).1.df.isSome ∧
          (load_data rc re s p).1.filename.isSome) ∧
    (∀ s : Session, (create_sample_data s).df.isSome ∧
      (create_sample_data s).filename.isSome) := by
  refine ⟨by simp [initSession], ?_, ?_, fun s => ⟨rfl, rfl⟩⟩
  · intro rc re inputs s2 h
    exact runMenu_inv (by simp [initSession]) h
  · intro rc re s p hsucc
    by_cases h1 : lowerStr (pathSuffix p) = ".csv"
    · cases hc : rc p with
      | ok t =>
        unfold load_data
        rw [if_pos h1, hc]
        exact ⟨rfl, rfl⟩
      | error e =>
        unfold load_data at hsucc
        rw [if_pos h1, hc] at hsucc
        exact absurd hsucc (by simp)
    · by_cases h2 : lowerStr (pathSuffix p) = ".xlsx" ∨
          lowerStr (pathSuffix p) = ".xls"
      · cases hc : re p with
        | ok t =>
          unfold load_data
          rw [if_neg h1, if_pos h2, hc]
          exact ⟨rfl, rfl⟩
        | error e =>
          unfold load_data at hsucc
          rw [if_neg h1, if_pos h2, hc] at hsucc
          exact absurd hsucc (by simp)
      · unfold load_data at hsucc
        rw [if_neg h1, if_neg h2] at hsucc
        exact absurd hsucc (by simp)

/-- Witness for C9: a run that loads a CSV ends in a session with both
the table and the name set, and a successful concrete load has both
set. -/
theorem session_table_iff_filename_witness :
    ((⟨some tblRS, some "a.csv"⟩ : Session).df = none ↔
      (⟨some tblRS, some "a.csv"⟩ : Session).filename = none) ∧
    ((load_data (okParser tblRS) failParser initSession "b.csv").1.df.isSome ∧
      (load_data (okParser tblRS) failParser initSession
        "b.csv").1.filename.isSome) := by
  constructor
  · exact session_table_iff_filename.2.1 (okParser tblRS) failParser
      [("1", "a.csv")] ⟨some tblRS, some "a.csv"⟩ (by decide)
  · exact session_table_iff_filename.2.2.1 (okParser tblRS) failParser
      initSession "b.csv" (by decide)

/-- Witness for C8: on a table with one textual and no numeric column
the dashboard file is written and panels 1, 3, 4 are blank. -/
theorem visualize_without_numeric_witness :
    (create_visualizations sText).2.writes = ["analysis_dashboard.png"] ∧
    (create_visualizations sText).2.panel1 = none ∧
    (create_visualizations sText).2.panel3 = none ∧
    (create_visualizations sText).2.panel4 = none := by
  have h := visualize_without_numeric sText tblText rfl
  have hn : numericNames tblText = [] := by decide
  exact ⟨h.2.2.1, (h.2.2.2.1 hn).1, (h.2.2.2.1 hn).2.1, (h.2.2.2.1 hn).2.2⟩

end Analyzer
